import Mathlib

/-! Shallow embedding of the Liaison task lifecycle and admission manager from
src/packages/mcp-liaison/src/index.ts. Timestamps are naturals counting
milliseconds, JS strings holding task text are lists of characters, and the JS
Map from task id to task record is a list of records in insertion order with
unique ids. The cooperative single-threaded scheduling of the host is made
explicit: the asynchronous engine driving one task is a sequence of atomic
blocks separated by suspension points (the awaited delays), and a cancellation
request can land only at a suspension point. -/

/-- Task status enumeration, mirroring enum TaskStatus in index.ts. -/
inductive TaskStatus
  | pending
  | in_progress
  | completed
  | failed
  | cancelled
deriving DecidableEq

/-- Task record, mirroring interface TaskState in index.ts. -/
structure TaskState where
  id : String
  task : List Char
  context : Option (List Char)
  status : TaskStatus
  createdAt : Nat
  updatedAt : Nat
  startedAt : Option Nat := none
  completedAt : Option Nat := none
  result : Option String := none
  error : Option String := none
  progress : Option Nat := none
deriving DecidableEq

/-- Configuration record, mirroring LiaisonConfig with all fields required. -/
structure LiaisonConfig where
  maxConcurrentTasks : Nat
  taskTimeoutMs : Nat
  maxTaskDescriptionLength : Nat
  maxContextLength : Nat
deriving DecidableEq

/-- Default configuration DEFAULT_CONFIG from index.ts. -/
def DEFAULT_CONFIG : LiaisonConfig :=
  { maxConcurrentTasks := 10
    taskTimeoutMs := 300000
    maxTaskDescriptionLength := 5000
    maxContextLength := 50000 }

/-- Statuses counted as active by getActiveTaskCount: PENDING or IN_PROGRESS. -/
def isActive : TaskStatus → Bool
  | .pending => true
  | .in_progress => true
  | _ => false

/-- Statuses treated as terminal by cleanupOldTasks and by the cancel_task
guard: COMPLETED, FAILED or CANCELLED. -/
def isTerminal : TaskStatus → Bool
  | .completed => true
  | .failed => true
  | .cancelled => true
  | _ => false

/-- Registry of task records: the entries of the tasks map in insertion order. -/
abbrev Registry := List TaskState

/-- Model of this.tasks.get: the record with the given id, if any. -/
def findTask (tasks : Registry) (taskId : String) : Option TaskState :=
  tasks.find? (fun t => t.id = taskId)

/-- Mutation of the record with the given id in place, as performed through the
object references held by the handlers (the map holds at most one match). -/
def updateTask (tasks : Registry) (taskId : String) (f : TaskState → TaskState) : Registry :=
  tasks.map (fun t => if t.id = taskId then f t else t)

/-- Model of this.tasks.set: replace the record with the same id if one exists,
otherwise append, following JS Map insertion order. -/
def setTask (tasks : Registry) (t : TaskState) : Registry :=
  if tasks.any (fun u => u.id = t.id) then
    tasks.map (fun u => if u.id = t.id then t else u)
  else
    tasks ++ [t]

/-- getActiveTaskCount from index.ts: number of PENDING or IN_PROGRESS records. -/
def getActiveTaskCount (tasks : Registry) : Nat :=
  (tasks.filter (fun t => isActive t.status)).length

/-- Descending order on updatedAt, the order produced by the comparator
(a, b) => b.updatedAt - a.updatedAt passed to Array.prototype.sort. -/
def updatedDesc (a b : TaskState) : Prop := b.updatedAt ≤ a.updatedAt

instance : DecidableRel updatedDesc := fun a b => Nat.decLe b.updatedAt a.updatedAt

instance : IsTotal TaskState updatedDesc := ⟨fun a b => Nat.le_total b.updatedAt a.updatedAt⟩

instance : IsTrans TaskState updatedDesc := ⟨fun _ _ _ hab hbc => Nat.le_trans hbc hab⟩

/-- Sorting by most recently updated first: a sort agreeing with the comparator
(a, b) => b.updatedAt - a.updatedAt (JS sort is a stable sort by the comparator;
any sort realising the comparator order is a faithful model for the properties
stated here, which do not constrain the order of ties). -/
def sortByUpdatedDesc (l : List TaskState) : List TaskState :=
  l.insertionSort updatedDesc

/-- cleanupOldTasks from index.ts: collect the terminal records sorted by most
recent updatedAt first and, when more than 100, delete all but the first 100
from the map. -/
def cleanupOldTasks (tasks : Registry) : Registry :=
  let completedTasks := sortByUpdatedDesc (tasks.filter (fun t => isTerminal t.status))
  if 100 < completedTasks.length then
    let toRemove := (completedTasks.drop 100).map TaskState.id
    tasks.filter (fun t => !(toRemove.contains t.id))
  else
    tasks

/-- Progress written after simulated step i (zero based) out of the given step
count: Math.round(((i + 1) / steps) * 100), as exact rational rounding (for the
five steps used by processTask the float computation is exact up to rounding). -/
def stepProgress (steps i : Nat) : Nat :=
  ((i + 1) * 100 * 2 + steps) / (steps * 2)

/-- First atomic block of processTask, which runs synchronously when delegate
invokes it, before the first await: set IN_PROGRESS, startedAt, updatedAt and
progress 0. -/
def startTask (now : Nat) (s : TaskState) : TaskState :=
  { s with status := .in_progress, startedAt := some now, updatedAt := now, progress := some 0 }

/-- Write performed on a live record by the cancel_task handler and by the
shutdown handler: set CANCELLED and refresh updatedAt when the record is
PENDING or IN_PROGRESS, otherwise leave the record alone. -/
def cancelWrite (now : Nat) (s : TaskState) : TaskState :=
  if isActive s.status then { s with status := .cancelled, updatedAt := now } else s

/-- Cancellation schedule for one engine run: some (j, tc) means one cancel_task
write for this task lands at the suspension point inside simulated step j, while
the engine awaits delay j, at wall clock tc; none means no cancellation lands
during the run. -/
abbrev CancelAt := Option (Nat × Nat)

/-- Whether the scheduled cancellation lands during delay i. -/
def cancelLands (cancel : CancelAt) (i : Nat) : Bool :=
  match cancel with
  | some (j, _) => j = i
  | none => false

/-- Effect on the record of the suspension during delay i: the scheduled
cancellation, when it lands here, performs the cancel_task write. -/
def sleepGap (cancel : CancelAt) (i : Nat) (s : TaskState) : TaskState :=
  match cancel with
  | some (j, tc) => if j = i then cancelWrite tc s else s
  | none => s

/-- Final atomic block of processTask, directly after the loop with no further
status check: compare elapsed wall clock since startedAt against the timeout;
on timeout the thrown error is caught and the record is marked FAILED with the
timeout message, otherwise the record is marked COMPLETED with progress 100 and
the simulated result. -/
def finalBlock (cfg : LiaisonConfig) (now : Nat) (s : TaskState) : TaskState :=
  if cfg.taskTimeoutMs < now - (s.startedAt.getD 0) then
    { s with status := .failed, completedAt := some now, updatedAt := now,
             error := some ("Task exceeded timeout of " ++ toString cfg.taskTimeoutMs ++ "ms") }
  else
    { s with status := .completed, completedAt := some now, updatedAt := now,
             progress := some 100,
             result := some ("Task completed successfully (simulated)") }

/-- Engine loop of processTask from iteration i with the given count of
remaining iterations, producing the list of registry states after each atomic
write by the engine or by the scheduled cancellation, in order. One iteration
is: re-read the authoritative status and stop when CANCELLED; await the delay,
the suspension point where a cancellation can land (recorded in the trace when
it does); then write the progress update with a fresh updatedAt. After the last
iteration the final block runs with no further status check. endT i is the wall
clock at which delay i resolves. -/
def engineTrace (cfg : LiaisonConfig) (steps : Nat) (endT : Nat → Nat) (cancel : CancelAt) :
    Nat → Nat → TaskState → List TaskState
  | 0, i, s => [finalBlock cfg (endT (i - 1)) s]
  | fuel + 1, i, s =>
    if s.status = .cancelled then []
    else
      let s1 := sleepGap cancel i s
      let s2 := { s1 with progress := some (stepProgress steps i), updatedAt := endT i }
      if cancelLands cancel i then
        s1 :: s2 :: engineTrace cfg steps endT cancel fuel (i + 1) s2
      else
        s2 :: engineTrace cfg steps endT cancel fuel (i + 1) s2

/-- Full run of processTask on one record, with const steps = 5 as in index.ts:
the start block runs first, then the loop and the final block. The trace lists
the record after each atomic write; its last element is the final record. -/
def processTaskRun (cfg : LiaisonConfig) (endT : Nat → Nat) (cancel : CancelAt)
    (t0 : Nat) (s : TaskState) : List TaskState :=
  let s0 := startTask t0 s
  s0 :: engineTrace cfg 5 endT cancel 5 0 s0

/-- Final record after a full run of processTask. -/
def finalState (cfg : LiaisonConfig) (endT : Nat → Nat) (cancel : CancelAt)
    (t0 : Nat) (s : TaskState) : TaskState :=
  (processTaskRun cfg endT cancel t0 s).getLastD s

/-- Result of the delegate tool handler, as serialized into its response. The
rejection carries the configured limit and the current active count; the
success response carries the task id, the status field read from the live
record at response time, the description, the context and createdAt. -/
inductive DelegateResult
  | rejected (maxConcurrentTasks currentActiveTasks : Nat)
  | accepted (taskId : String) (status : TaskStatus) (task : List Char)
      (context : Option (List Char)) (createdAt : Nat)
deriving DecidableEq

/-- Delegate tool handler from index.ts, after schema validation: check the
concurrency cap first; on acceptance create the PENDING record, insert it into
the map, run the synchronous part of processTask (which sets IN_PROGRESS and
passes the first cancellation check before suspending at the first await), run
cleanupOldTasks, and build the response from the live record object, whose
status field is therefore read after the engine start block. -/
def delegate (cfg : LiaisonConfig) (tasks : Registry) (taskId : String)
    (task : List Char) (context : Option (List Char)) (now : Nat) :
    Registry × DelegateResult :=
  let activeCount := getActiveTaskCount tasks
  if cfg.maxConcurrentTasks ≤ activeCount then
    (tasks, .rejected cfg.maxConcurrentTasks activeCount)
  else
    let taskState : TaskState :=
      { id := taskId, task := task, context := context, status := .pending,
        createdAt := now, updatedAt := now, progress := some 0 }
    let tasks1 := setTask tasks taskState
    let started := startTask now taskState
    let tasks2 := setTask tasks1 started
    let tasks3 := cleanupOldTasks tasks2
    (tasks3, .accepted taskId started.status task context taskState.createdAt)

/-- Result of the cancel_task tool handler. -/
inductive CancelResult
  | notFound
  | invalidState (status : TaskStatus)
  | ok (task : TaskState)
deriving DecidableEq

/-- cancel_task tool handler from index.ts: a not-found error when the id has
no record; an invalid-state rejection reporting the current status when the
record is not PENDING and not IN_PROGRESS; otherwise set status CANCELLED and
updatedAt to now, and return the updated record. -/
def cancelTask (tasks : Registry) (taskId : String) (now : Nat) :
    Registry × CancelResult :=
  match findTask tasks taskId with
  | none => (tasks, .notFound)
  | some t =>
    if isActive t.status then
      let t2 := { t with status := .cancelled, updatedAt := now }
      (setTask tasks t2, .ok t2)
    else
      (tasks, .invalidState t.status)

/-- list_tasks tool handler core from index.ts: optionally filter by status,
sort by most recently updated first, truncate to the limit. The input schema
bounds the limit to the integers 1 to 100 and defaults it to 10. -/
def listTasks (tasks : Registry) (status : Option TaskStatus) (limit : Nat) : List TaskState :=
  let ts := match status with
    | some st => tasks.filter (fun t => t.status = st)
    | none => tasks
  (sortByUpdatedDesc ts).take limit

/-- Truncation of the stored description in a list_tasks entry:
task.substring(0, 100) plus an ellipsis exactly when the length exceeds 100. -/
def truncateTaskText (s : List Char) : List Char :=
  s.take 100 ++ (if 100 < s.length then ("...").toList else [])

/-- One entry of the list_tasks response. -/
structure ListEntry where
  taskId : String
  status : TaskStatus
  task : List Char
  createdAt : Nat
  updatedAt : Nat
  progress : Option Nat
deriving DecidableEq

/-- Entry built from a record by the list_tasks handler. -/
def mkListEntry (t : TaskState) : ListEntry :=
  { taskId := t.id, status := t.status, task := truncateTaskText t.task,
    createdAt := t.createdAt, updatedAt := t.updatedAt, progress := t.progress }

/-- Entries of the list_tasks response. -/
def listTaskEntries (tasks : Registry) (status : Option TaskStatus) (limit : Nat) :
    List ListEntry :=
  (listTasks tasks status limit).map mkListEntry

/-- Description field of the check_status response: the stored description,
returned unmodified, or none when the task does not exist. -/
def checkStatusTaskText (tasks : Registry) (taskId : String) : Option (List Char) :=
  (findTask tasks taskId).map TaskState.task

/-- Atomic registry operations of the system, for reasoning about arbitrary
interleavings: a delegate call, a cancel_task call, one post-delay progress
write of some engine, the final block of some engine, and the shutdown sweep.
The engine blocks are admitted at any id, time and progress value, which
over-approximates the schedules the real engines can produce. -/
inductive RegistryOp
  | opDelegate (taskId : String) (task : List Char) (context : Option (List Char)) (now : Nat)
  | opCancel (taskId : String) (now : Nat)
  | opProgressWrite (taskId : String) (p : Nat) (now : Nat)
  | opFinish (taskId : String) (now : Nat)
  | opShutdown (now : Nat)

/-- Effect of one operation on the registry. -/
def applyOp (cfg : LiaisonConfig) (tasks : Registry) : RegistryOp → Registry
  | .opDelegate taskId task context now => (delegate cfg tasks taskId task context now).1
  | .opCancel taskId now => (cancelTask tasks taskId now).1
  | .opProgressWrite taskId p now =>
      updateTask tasks taskId (fun t => { t with progress := some p, updatedAt := now })
  | .opFinish taskId now => updateTask tasks taskId (finalBlock cfg now)
  | .opShutdown now => tasks.map (cancelWrite now)

/-- Registry reached by a sequence of operations from the given registry. -/
def runOps (cfg : LiaisonConfig) (ops : List RegistryOp) (tasks : Registry) : Registry :=
  ops.foldl (applyOp cfg) tasks

/-- Sample freshly delegated record used in concrete runs. -/
def sampleTask : TaskState :=
  { id := "task-1", task := ("ping").toList, context := none, status := .pending,
    createdAt := 0, updatedAt := 0, progress := some 0 }

/-- Sample completed record used in concrete runs. -/
def demoDone : TaskState :=
  { id := "task-2", task := ("alpha").toList, context := none, status := .completed,
    createdAt := 0, updatedAt := 10, completedAt := some 10, progress := some 100,
    result := some ("done") }

/-- Second sample completed record, more recently updated. -/
def demoDone2 : TaskState :=
  { id := "task-3", task := ("beta").toList, context := none, status := .completed,
    createdAt := 0, updatedAt := 20, completedAt := some 20, progress := some 100,
    result := some ("done") }

/-- Sample running record used in concrete runs. -/
def demoRunning : TaskState :=
  { id := "task-4", task := ("gamma").toList, context := none, status := .in_progress,
    createdAt := 0, updatedAt := 30, startedAt := some 1, progress := some 40 }

/-- Registry holding ten running records with distinct ids, the state reached
when ten delegations have been admitted under the default cap and none has
finished. -/
def demoTen : Registry :=
  ["a", "b", "c", "d", "e", "f", "g", "h", "i", "j"].map (fun n =>
    { id := n, task := ("w").toList, context := none, status := .in_progress,
      createdAt := 0, updatedAt := 0, startedAt := some 0, progress := some 0 })

/-- Description of 150 characters, used to exercise listing truncation. -/
def longText : List Char := List.replicate 150 'a'

/-- Count of terminal records in a registry, the measure bounded by the
retention policy. -/
def terminalCount (l : Registry) : Nat := (l.filter (fun t => isTerminal t.status)).length

/-! Helper lemmas shared by the claim theorems. -/

/-- Every record returned by listTasks is a record of the registry. -/
theorem mem_of_mem_listTasks {tasks : Registry} {st : Option TaskStatus} {limit : Nat}
    {t : TaskState} (h : t ∈ listTasks tasks st limit) : t ∈ tasks := by
  unfold listTasks at h
  have h1 := (List.take_sublist limit _).subset h
  rw [sortByUpdatedDesc, List.mem_insertionSort] at h1
  cases st with
  | none => exact h1
  | some s => exact (List.mem_filter.mp h1).1

/-- Every record returned by a filtered listTasks has the requested status. -/
theorem status_of_mem_listTasks {tasks : Registry} {s : TaskStatus} {limit : Nat}
    {t : TaskState} (h : t ∈ listTasks tasks (some s) limit) : t.status = s := by
  unfold listTasks at h
  have h1 := (List.take_sublist limit _).subset h
  rw [sortByUpdatedDesc, List.mem_insertionSort] at h1
  exact of_decide_eq_true (List.mem_filter.mp h1).2

/-- listTasks output is ordered by updatedAt descending. -/
theorem pairwise_listTasks (tasks : Registry) (st : Option TaskStatus) (limit : Nat) :
    (listTasks tasks st limit).Pairwise (fun a b => b.updatedAt ≤ a.updatedAt) := by
  unfold listTasks
  exact List.Pairwise.sublist (List.take_sublist limit _)
    (List.sorted_insertionSort updatedDesc _)

/-- listTasks returns at most limit records. -/
theorem length_listTasks (tasks : Registry) (st : Option TaskStatus) (limit : Nat) :
    (listTasks tasks st limit).length ≤ limit := by
  unfold listTasks
  exact List.length_take_le _ _

/-- A cancellation landing during one of the first four delays is observed by
the status check before the next delay, so the run ends CANCELLED. -/
theorem finalState_cancel_early (cfg : LiaisonConfig) (endT : Nat → Nat) (t0 tc : Nat)
    (s : TaskState) (j : Nat) (hj : j ≤ 3) :
    (finalState cfg endT (some (j, tc)) t0 s).status = .cancelled := by
  interval_cases j <;> rfl

/-- A cancellation landing during the fifth and last delay comes after the last
status check, so the final block still runs and overwrites the record. -/
theorem finalState_cancel_last (cfg : LiaisonConfig) (endT : Nat → Nat) (t0 tc : Nat)
    (s : TaskState) :
    (finalState cfg endT (some (4, tc)) t0 s).status = .completed
    ∨ (finalState cfg endT (some (4, tc)) t0 s).status = .failed := by
  have hrw : finalState cfg endT (some (4, tc)) t0 s = finalBlock cfg (endT 4)
      { s with status := .cancelled, startedAt := some t0,
               updatedAt := endT 4, progress := some 100 } := rfl
  by_cases h : cfg.taskTimeoutMs < endT 4 - t0
  · exact Or.inr (by rw [hrw, finalBlock, if_pos (by simpa using h)])
  · exact Or.inl (by rw [hrw, finalBlock, if_neg (by simpa using h)])

/-- A run with no cancellation ends COMPLETED or FAILED by the timeout check. -/
theorem finalState_nocancel (cfg : LiaisonConfig) (endT : Nat → Nat) (t0 : Nat)
    (s : TaskState) :
    (finalState cfg endT none t0 s).status = .completed
    ∨ (finalState cfg endT none t0 s).status = .failed := by
  have hrw : finalState cfg endT none t0 s = finalBlock cfg (endT 4)
      { s with status := .in_progress, startedAt := some t0,
               updatedAt := endT 4, progress := some 100 } := rfl
  by_cases h : cfg.taskTimeoutMs < endT 4 - t0
  · exact Or.inr (by rw [hrw, finalBlock, if_pos (by simpa using h)])
  · exact Or.inl (by rw [hrw, finalBlock, if_neg (by simpa using h)])

/-- Terminal statuses are exactly the statuses rejected by the active test. -/
theorem isActive_eq_false_of_isTerminal {st : TaskStatus} (h : isTerminal st = true) :
    isActive st = false := by
  cases st <;> simp [isActive] <;> simp [isTerminal] at h

/-- Active count as countP. -/
theorem getActiveTaskCount_eq_countP (l : Registry) :
    getActiveTaskCount l = l.countP (fun t => isActive t.status) := by
  rw [getActiveTaskCount, List.countP_eq_length_filter]

/-- Mapping a function that never activates a record does not raise the active
count. -/
theorem getActiveTaskCount_map_le {f : TaskState → TaskState}
    (hf : ∀ t, isActive (f t).status = true → isActive t.status = true) (l : Registry) :
    getActiveTaskCount (l.map f) ≤ getActiveTaskCount l := by
  rw [getActiveTaskCount_eq_countP, getActiveTaskCount_eq_countP, List.countP_map]
  exact List.countP_mono_left (fun x _ h => hf x h)

/-- Filtering does not raise the active count. -/
theorem getActiveTaskCount_filter_le (q : TaskState → Bool) (l : Registry) :
    getActiveTaskCount (l.filter q) ≤ getActiveTaskCount l := by
  rw [getActiveTaskCount_eq_countP, getActiveTaskCount_eq_countP]
  exact (List.filter_sublist l).countP_le _

/-- Retention cleanup does not raise the active count. -/
theorem cleanupOldTasks_active_le (l : Registry) :
    getActiveTaskCount (cleanupOldTasks l) ≤ getActiveTaskCount l := by
  rw [cleanupOldTasks]
  split
  · exact getActiveTaskCount_filter_le _ l
  · exact Nat.le_refl _

/-- Replacing the records carrying one id raises a countP by at most one, given
unique ids. -/
theorem countP_map_replace_le (p : TaskState → Bool) (t : TaskState) :
    ∀ l : Registry, (l.map TaskState.id).Nodup →
      List.countP p (l.map (fun u => if u.id = t.id then t else u)) ≤ List.countP p l + 1
  | [], _ => by simp
  | a :: l, hN => by
    rw [List.map_cons, List.countP_cons, List.countP_cons]
    by_cases ha : a.id = t.id
    · rw [if_pos ha]
      have hne : ∀ u ∈ l, u.id ≠ t.id := by
        intro u hu hut
        exact (List.nodup_cons.mp hN).1 (ha ▸ hut ▸ List.mem_map_of_mem TaskState.id hu)
      have htail : l.map (fun u => if u.id = t.id then t else u) = l.map (fun u => u) :=
        List.map_congr_left (fun u hu => if_neg (hne u hu))
      rw [htail, List.map_id']
      by_cases hp : p t <;> by_cases hq : p a <;> simp [hp, hq] <;> omega
    · rw [if_neg ha]
      have ih := countP_map_replace_le p t l (List.nodup_cons.mp hN).2
      omega

/-- Inserting one record raises the active count by at most one, given unique
ids. -/
theorem setTask_count_le {l : Registry} (hN : (l.map TaskState.id).Nodup) (t : TaskState) :
    getActiveTaskCount (setTask l t) ≤ getActiveTaskCount l + 1 := by
  rw [setTask]
  split
  · rw [getActiveTaskCount_eq_countP, getActiveTaskCount_eq_countP]
    exact countP_map_replace_le _ t l hN
  · rw [getActiveTaskCount_eq_countP, getActiveTaskCount_eq_countP, List.countP_append]
    have h1 : List.countP (fun t => isActive t.status) [t] ≤ 1 := by
      rw [List.countP_cons]
      simp [List.countP_nil]
      split <;> omega
    omega

/-- Inserting a record that is not active does not raise the active count. -/
theorem setTask_inactive_count_le {t : TaskState} (ht : isActive t.status = false)
    (l : Registry) : getActiveTaskCount (setTask l t) ≤ getActiveTaskCount l := by
  rw [setTask]
  split
  · rw [getActiveTaskCount_eq_countP, getActiveTaskCount_eq_countP, List.countP_map]
    apply List.countP_mono_left
    intro u _ hu
    simp only [Function.comp] at hu
    by_cases h : u.id = t.id
    · rw [if_pos h] at hu
      rw [ht] at hu
      exact absurd hu (by simp)
    · rwa [if_neg h] at hu
  · rw [getActiveTaskCount_eq_countP, getActiveTaskCount_eq_countP, List.countP_append]
    have : List.countP (fun u => isActive u.status) [t] = 0 := by
      simp [List.countP_cons, List.countP_nil, ht]
    omega

/-- Insertion keeps the ids of a registry free of duplicates. -/
theorem setTask_ids_nodup {l : Registry} (hN : (l.map TaskState.id).Nodup) (t : TaskState) :
    ((setTask l t).map TaskState.id).Nodup := by
  rw [setTask]
  split
  · have heq : (l.map (fun u => if u.id = t.id then t else u)).map TaskState.id
        = l.map TaskState.id := by
      rw [List.map_map]
      apply List.map_congr_left
      intro u _
      by_cases h : u.id = t.id
      · simp [Function.comp, if_pos h, h]
      · simp [Function.comp, if_neg h]
    rw [heq]
    exact hN
  · rename_i hany
    rw [List.map_append, List.nodup_append]
    refine ⟨hN, by simp, ?_⟩
    intro x hx hx2
    simp only [List.map_cons, List.map_nil, List.mem_cons, List.not_mem_nil, or_false] at hx2
    subst hx2
    obtain ⟨u, hu, hui⟩ := List.mem_map.mp hx
    have h1 : ∀ v ∈ l, ¬(decide (v.id = t.id) = true) :=
      List.any_eq_false.mp (Bool.of_not_eq_true hany)
    exact h1 u hu (decide_eq_true hui)

/-- In-place mutation through an id-preserving function keeps the id list. -/
theorem updateTask_ids_eq (l : Registry) (taskId : String) (f : TaskState → TaskState)
    (hf : ∀ t, (f t).id = t.id) :
    (updateTask l taskId f).map TaskState.id = l.map TaskState.id := by
  rw [updateTask, List.map_map]
  apply List.map_congr_left
  intro u _
  by_cases h : u.id = taskId
  · simp [Function.comp, if_pos h, hf u]
  · simp [Function.comp, if_neg h]

/-- Mapping an id-preserving function keeps the id list. -/
theorem map_ids_eq (l : Registry) (f : TaskState → TaskState)
    (hf : ∀ t, (f t).id = t.id) :
    (l.map f).map TaskState.id = l.map TaskState.id := by
  rw [List.map_map]
  exact List.map_congr_left (fun u _ => hf u)

/-- Retention cleanup only ever removes records, so the id list shrinks. -/
theorem cleanupOldTasks_ids_sublist (l : Registry) :
    ((cleanupOldTasks l).map TaskState.id).Sublist (l.map TaskState.id) := by
  rw [cleanupOldTasks]
  split
  · exact (List.filter_sublist l).map TaskState.id
  · exact List.Sublist.refl _

/-- Replacing the records of one id leaves the presence test of another record
with the same id unchanged. -/
theorem any_id_map_replace (l : Registry) (a b : TaskState) (hab : b.id = a.id) :
    (l.map (fun u => if u.id = a.id then a else u)).any (fun u => u.id = b.id)
      = l.any (fun u => u.id = b.id) := by
  induction l with
  | nil => rfl
  | cons x l ih =>
    rw [List.map_cons, List.any_cons, List.any_cons, ih]
    by_cases hx : x.id = a.id
    · rw [if_pos hx]
      simp [hab, hx]
    · rw [if_neg hx]

/-- Two consecutive insertions under the same id collapse to the second one. -/
theorem setTask_setTask {a b : TaskState} (hab : b.id = a.id) (l : Registry) :
    setTask (setTask l a) b = setTask l b := by
  by_cases hany : l.any (fun u => u.id = a.id) = true
  · have hany2 : l.any (fun u => u.id = b.id) = true := by rw [hab]; exact hany
    have hinner : setTask l a = l.map (fun u => if u.id = a.id then a else u) := by
      rw [setTask, if_pos hany]
    have hrhs : setTask l b = l.map (fun u => if u.id = b.id then b else u) := by
      rw [setTask, if_pos hany2]
    have hout : setTask (l.map (fun u => if u.id = a.id then a else u)) b
        = (l.map (fun u => if u.id = a.id then a else u)).map
            (fun u => if u.id = b.id then b else u) := by
      rw [setTask, if_pos (by rw [any_id_map_replace l a b hab]; exact hany2)]
    rw [hinner, hout, hrhs, List.map_map]
    apply List.map_congr_left
    intro u _
    by_cases hu : u.id = a.id
    · simp [Function.comp, if_pos hu, hab, hu]
    · have hu2 : ¬(u.id = b.id) := by rw [hab]; exact hu
      simp [Function.comp, if_neg hu, if_neg hu2]
  · have hany2 : ¬(l.any (fun u => u.id = b.id) = true) := by rw [hab]; exact hany
    have hinner : setTask l a = l ++ [a] := by
      rw [setTask, if_neg hany]
    have hrhs : setTask l b = l ++ [b] := by
      rw [setTask, if_neg hany2]
    rw [hinner, hrhs]
    have hcond : ((l ++ [a]).any (fun u => u.id = b.id)) = true := by
      rw [List.any_append]
      simp [hab]
    rw [setTask, if_pos hcond, List.map_append]
    have h1 : l.map (fun u => if u.id = b.id then b else u) = l.map (fun u => u) := by
      apply List.map_congr_left
      intro u hu
      have hne : ¬(decide (u.id = b.id) = true) :=
        List.any_eq_false.mp (Bool.of_not_eq_true hany2) u hu
      rw [if_neg (by simpa using hne)]
    rw [h1, List.map_id']
    simp [hab.symm]

/-- Collapse specialised to an id-preserving rewrite of the inserted record. -/
theorem setTask_setTask_fn (a : TaskState) (f : TaskState → TaskState)
    (hf : (f a).id = a.id) (l : Registry) :
    setTask (setTask l a) (f a) = setTask l (f a) :=
  setTask_setTask hf l

/-- Membership in the sorted terminal sublist used by the retention policy. -/
theorem sortTerm_mem {l : Registry} {x : TaskState} :
    x ∈ sortByUpdatedDesc (l.filter (fun t => isTerminal t.status))
      ↔ x ∈ l ∧ isTerminal x.status = true := by
  rw [sortByUpdatedDesc, List.mem_insertionSort, List.mem_filter]

/-- After cleanup at most 100 terminal records remain, given unique ids. -/
theorem cleanup_terminal_le (l : Registry) (hN : (l.map TaskState.id).Nodup) :
    terminalCount (cleanupOldTasks l) ≤ 100 := by
  rw [cleanupOldTasks]
  split
  · rename_i hlen
    set S := sortByUpdatedDesc (l.filter (fun t => isTerminal t.status)) with hS
    rw [terminalCount]
    have hKsub : (List.filter (fun t => isTerminal t.status)
        (l.filter (fun t => !(((S.drop 100).map TaskState.id).contains t.id)))) ⊆ S.take 100 := by
      intro x hx
      have hx1 := List.mem_filter.mp hx
      have hx2 := List.mem_filter.mp hx1.1
      have hxS : x ∈ S := sortTerm_mem.mpr ⟨hx2.1, hx1.2⟩
      rw [← List.take_append_drop 100 S, List.mem_append] at hxS
      rcases hxS with h | h
      · exact h
      · exfalso
        have hcon : ((S.drop 100).map TaskState.id).contains x.id = true :=
          List.elem_eq_true_of_mem (List.mem_map_of_mem TaskState.id h)
        rw [hcon] at hx2
        simp at hx2
    have hKnodup : (List.filter (fun t => isTerminal t.status)
        (l.filter (fun t => !(((S.drop 100).map TaskState.id).contains t.id)))).Nodup :=
      ((List.filter_sublist _).trans (List.filter_sublist l)).nodup (List.Nodup.of_map _ hN)
    exact Nat.le_trans (List.subperm_of_subset hKnodup hKsub).length_le (List.length_take_le _ _)
  · rename_i hlen
    rw [terminalCount]
    have hlen2 : (sortByUpdatedDesc (l.filter (fun t => isTerminal t.status))).length
        = (l.filter (fun t => isTerminal t.status)).length := by
      rw [sortByUpdatedDesc, List.length_insertionSort]
    omega

/-- Cleanup never removes a non-terminal record, given unique ids. -/
theorem cleanup_keeps_nonterminal (l : Registry) (hN : (l.map TaskState.id).Nodup)
    (t : TaskState) (ht : t ∈ l) (hterm : isTerminal t.status = false) :
    t ∈ cleanupOldTasks l := by
  rw [cleanupOldTasks]
  split
  · apply List.mem_filter.mpr
    refine ⟨ht, ?_⟩
    set S := sortByUpdatedDesc (l.filter (fun u => isTerminal u.status)) with hS
    by_cases hc : ((S.drop 100).map TaskState.id).contains t.id = true
    · exfalso
      obtain ⟨v, hv, hvid⟩ := List.mem_map.mp (List.mem_of_elem_eq_true hc)
      have hvS : v ∈ S := (List.drop_subset _ _) hv
      have hvl := sortTerm_mem.mp hvS
      have hvt : v = t := List.inj_on_of_nodup_map hN hvl.1 ht hvid
      rw [hvt] at hvl
      rw [hvl.2] at hterm
      exact absurd hterm (by simp)
    · simp only [Bool.not_eq_true] at hc
      rw [hc]
      rfl
  · exact ht

/-- Every record cleanup evicts is no more recently updated than any terminal
record it keeps, given unique ids. -/
theorem cleanup_evicts_oldest (l : Registry) (hN : (l.map TaskState.id).Nodup)
    (t u : TaskState) (ht : t ∈ l) (hnot : t ∉ cleanupOldTasks l)
    (hu : u ∈ cleanupOldTasks l) (huterm : isTerminal u.status = true) :
    t.updatedAt ≤ u.updatedAt := by
  rw [cleanupOldTasks] at hnot hu
  by_cases hsplit : 100 < (sortByUpdatedDesc (l.filter (fun v => isTerminal v.status))).length
  case neg =>
    rw [if_neg hsplit] at hnot
    exact absurd ht hnot
  case pos =>
    rw [if_pos hsplit] at hnot hu
    set S := sortByUpdatedDesc (l.filter (fun v => isTerminal v.status)) with hS
    have htdrop : t ∈ S.drop 100 := by
      by_cases hc : ((S.drop 100).map TaskState.id).contains t.id = true
      · obtain ⟨v, hv, hvid⟩ := List.mem_map.mp (List.mem_of_elem_eq_true hc)
        have hvS : v ∈ S := (List.drop_subset _ _) hv
        have hvl := sortTerm_mem.mp hvS
        have hvt : v = t := List.inj_on_of_nodup_map hN hvl.1 ht hvid
        rwa [hvt] at hv
      · exfalso
        apply hnot
        apply List.mem_filter.mpr
        refine ⟨ht, ?_⟩
        simp only [Bool.not_eq_true] at hc
        rw [hc]
        rfl
    have hutake : u ∈ S.take 100 := by
      have hu1 := List.mem_filter.mp hu
      have huS : u ∈ S := sortTerm_mem.mpr ⟨hu1.1, huterm⟩
      rw [← List.take_append_drop 100 S, List.mem_append] at huS
      rcases huS with h | h
      · exact h
      · exfalso
        have hcon : ((S.drop 100).map TaskState.id).contains u.id = true :=
          List.elem_eq_true_of_mem (List.mem_map_of_mem TaskState.id h)
        rw [hcon] at hu1
        simp at hu1
    have hsorted : List.Pairwise updatedDesc S :=
      List.sorted_insertionSort updatedDesc _
    rw [← List.take_append_drop 100 S, List.pairwise_append] at hsorted
    exact hsorted.2.2 u hutake t htdrop

/-- Every single registry operation preserves unique ids and the admission
bound on the active count. -/
theorem applyOp_preserves_invariant (cfg : LiaisonConfig) (tasks : Registry) (op : RegistryOp)
    (hN : (tasks.map TaskState.id).Nodup)
    (hC : getActiveTaskCount tasks ≤ cfg.maxConcurrentTasks) :
    ((applyOp cfg tasks op).map TaskState.id).Nodup
    ∧ getActiveTaskCount (applyOp cfg tasks op) ≤ cfg.maxConcurrentTasks := by
  cases op with
  | opDelegate taskId task context now =>
    simp only [applyOp, delegate]
    split
    · exact ⟨hN, hC⟩
    · rename_i hguard
      have hlt : getActiveTaskCount tasks < cfg.maxConcurrentTasks := by omega
      constructor
      · exact (cleanupOldTasks_ids_sublist _).nodup
          (setTask_ids_nodup (setTask_ids_nodup hN _) _)
      · refine Nat.le_trans (cleanupOldTasks_active_le _) ?_
        rw [setTask_setTask_fn _ (startTask now) rfl]
        exact Nat.le_trans (setTask_count_le hN _) (by omega)
  | opCancel taskId now =>
    simp only [applyOp, cancelTask]
    split
    · exact ⟨hN, hC⟩
    · rename_i t hf
      split
      · refine ⟨setTask_ids_nodup hN _, ?_⟩
        exact Nat.le_trans (setTask_inactive_count_le (by simp [isActive]) tasks) hC
      · exact ⟨hN, hC⟩
  | opProgressWrite taskId p now =>
    refine ⟨?_, ?_⟩
    · rw [applyOp, updateTask_ids_eq tasks taskId
        (fun t => { t with progress := some p, updatedAt := now }) (fun t => rfl)]
      exact hN
    · rw [applyOp, updateTask]
      refine Nat.le_trans (getActiveTaskCount_map_le ?_ tasks) hC
      intro t ht
      by_cases h : t.id = taskId
      · rwa [if_pos h] at ht
      · rwa [if_neg h] at ht
  | opFinish taskId now =>
    refine ⟨?_, ?_⟩
    · rw [applyOp, updateTask_ids_eq tasks taskId (finalBlock cfg now)
        (fun t => by rw [finalBlock]; split <;> rfl)]
      exact hN
    · rw [applyOp, updateTask]
      refine Nat.le_trans (getActiveTaskCount_map_le ?_ tasks) hC
      intro t ht
      by_cases h : t.id = taskId
      · rw [if_pos h, finalBlock] at ht
        revert ht
        split <;> simp [isActive]
      · rwa [if_neg h] at ht
  | opShutdown now =>
    refine ⟨?_, ?_⟩
    · rw [applyOp, map_ids_eq tasks (cancelWrite now)
        (fun t => by rw [cancelWrite]; split <;> rfl)]
      exact hN
    · rw [applyOp]
      refine Nat.le_trans (getActiveTaskCount_map_le ?_ tasks) hC
      intro t ht
      rw [cancelWrite] at ht
      revert ht
      split <;> simp [isActive]

/-- The invariant of applyOp extends to arbitrary operation sequences. -/
theorem runOps_preserves_invariant (cfg : LiaisonConfig) (ops : List RegistryOp) :
    ∀ tasks : Registry, (tasks.map TaskState.id).Nodup →
      getActiveTaskCount tasks ≤ cfg.maxConcurrentTasks →
      ((runOps cfg ops tasks).map TaskState.id).Nodup
      ∧ getActiveTaskCount (runOps cfg ops tasks) ≤ cfg.maxConcurrentTasks := by
  induction ops with
  | nil => intro tasks hN hC; exact ⟨hN, hC⟩
  | cons op ops ih =>
    intro tasks hN hC
    have h1 := applyOp_preserves_invariant cfg tasks op hN hC
    exact ih (applyOp cfg tasks op) h1.1 h1.2

/-! Claim theorems. -/

/-- C1 counterexample: with five executor steps, a cancellation write landing
after step four completes (k = 4 < N = 5) and before step five completes, that
is during the fifth delay, is NOT observed: the engine has already passed its
last status check, so the final status is COMPLETED rather than CANCELLED,
refuting the claim as stated. -/
theorem cancellation_race_cex :
    (finalState DEFAULT_CONFIG (fun i => 1000 * (i + 1)) (some (4, 4200)) 0 sampleTask).status
      = .completed
    ∧ (finalState DEFAULT_CONFIG (fun i => 1000 * (i + 1)) (some (4, 4200)) 0 sampleTask).status
      ≠ .cancelled :=
  ⟨rfl, by decide⟩

/-- C1 (amended): the race is deterministic given a fixed interleaving, but the
boundary lies at the last status check, not at step N: a cancellation landing
during step j + 1 for j at most 3 (before the last of the five checks) yields
final status CANCELLED; one landing during the fifth and last step, or no
cancellation at all, yields COMPLETED or FAILED as the executor outcome and
timeout dictate. -/
theorem cancellation_race_resolution (cfg : LiaisonConfig) (endT : Nat → Nat)
    (t0 : Nat) (s : TaskState) :
    (∀ j tc, j ≤ 3 → (finalState cfg endT (some (j, tc)) t0 s).status = .cancelled)
    ∧ (∀ tc, (finalState cfg endT (some (4, tc)) t0 s).status = .completed
        ∨ (finalState cfg endT (some (4, tc)) t0 s).status = .failed)
    ∧ ((finalState cfg endT none t0 s).status = .completed
        ∨ (finalState cfg endT none t0 s).status = .failed) :=
  ⟨fun j tc hj => finalState_cancel_early cfg endT t0 tc s j hj,
   fun tc => finalState_cancel_last cfg endT t0 tc s,
   finalState_nocancel cfg endT t0 s⟩

/-- C1 witness: the amended race theorem evaluated at a cancellation landing
during the third delay. -/
theorem cancellation_race_resolution_witness :
    (2 : Nat) ≤ 3
    ∧ (finalState DEFAULT_CONFIG (fun i => 1000 * (i + 1)) (some (2, 2500)) 0 sampleTask).status
      = .cancelled :=
  ⟨by decide,
   (cancellation_race_resolution DEFAULT_CONFIG (fun i => 1000 * (i + 1)) 0 sampleTask).1 2 2500
     (by decide)⟩

/-- C2 counterexample: in the concrete run where the cancellation lands during
the fifth delay, the trace of record states contains CANCELLED (a terminal
status) at position 5 and COMPLETED at position 7: a later engine write changed
a terminal status, refuting the claim as stated. -/
theorem terminal_monotonicity_cex :
    ((processTaskRun DEFAULT_CONFIG (fun i => 1000 * (i + 1)) (some (4, 4500)) 0 sampleTask).map
        TaskState.status).get? 5 = some .cancelled
    ∧ ((processTaskRun DEFAULT_CONFIG (fun i => 1000 * (i + 1)) (some (4, 4500)) 0 sampleTask).map
        TaskState.status).get? 7 = some .completed
    ∧ isTerminal .cancelled = true :=
  ⟨by decide, by decide, rfl⟩

/-- C2 (amended): cancellation and shutdown never change a terminal status, and
the engine writes nothing more once a per-step check observes CANCELLED; the
single exception to terminal immutability is the final engine block, which runs
with no status check after the last step, so a CANCELLED written during the
last of the five steps is overwritten to COMPLETED or FAILED. A cancellation
observed at a check (one landing during any of the first four steps) does stay
CANCELLED to the end of the run. -/
theorem terminal_monotonicity_amended (cfg : LiaisonConfig) (endT : Nat → Nat)
    (tasks : Registry) (taskId : String) (now t0 tc : Nat) (s : TaskState) (j : Nat) :
    (∀ t, findTask tasks taskId = some t → isTerminal t.status = true →
        (cancelTask tasks taskId now).1 = tasks)
    ∧ (isTerminal s.status = true → cancelWrite now s = s)
    ∧ (∀ steps cancel fuel i, s.status = .cancelled →
        engineTrace cfg steps endT cancel (fuel + 1) i s = [])
    ∧ (j ≤ 3 → (finalState cfg endT (some (j, tc)) t0 s).status = .cancelled)
    ∧ ((finalState cfg endT (some (4, tc)) t0 s).status = .completed
        ∨ (finalState cfg endT (some (4, tc)) t0 s).status = .failed) := by
  refine ⟨?_, ?_, ?_, fun hj => finalState_cancel_early cfg endT t0 tc s j hj,
    finalState_cancel_last cfg endT t0 tc s⟩
  · intro t hf ht
    rw [cancelTask, hf]
    simp [isActive_eq_false_of_isTerminal ht]
  · intro ht
    rw [cancelWrite, if_neg (by simp [isActive_eq_false_of_isTerminal ht])]
  · intro steps cancel fuel i hc
    simp only [engineTrace]
    rw [if_pos hc]

/-- C2 witness: the amended monotonicity theorem evaluated on a registry with
one completed record and on a run cancelled during the second delay. -/
theorem terminal_monotonicity_amended_witness :
    findTask [demoDone] ("task-2") = some demoDone
    ∧ isTerminal demoDone.status = true
    ∧ (cancelTask [demoDone] ("task-2") 7).1 = [demoDone]
    ∧ cancelWrite 7 demoDone = demoDone
    ∧ (1 : Nat) ≤ 3
    ∧ (finalState DEFAULT_CONFIG (fun i => 1000 * (i + 1)) (some (1, 1500)) 0 sampleTask).status
      = .cancelled := by
  refine ⟨rfl, rfl, ?_, ?_, by decide, ?_⟩
  · exact (terminal_monotonicity_amended DEFAULT_CONFIG (fun i => 1000 * (i + 1)) [demoDone]
      "task-2" 7 0 1500 sampleTask 1).1 demoDone rfl rfl
  · exact (terminal_monotonicity_amended DEFAULT_CONFIG (fun i => 1000 * (i + 1)) [demoDone]
      "task-2" 7 0 1500 demoDone 1).2.1 rfl
  · exact (terminal_monotonicity_amended DEFAULT_CONFIG (fun i => 1000 * (i + 1)) [demoDone]
      "task-2" 7 0 1500 sampleTask 1).2.2.2.1 (by decide)

/-- C3: evaluation of the delegate handler at the failing input. Delegating
the description ping with no context on an empty registry yields a success
response whose status field is IN_PROGRESS, not PENDING as the claim states:
the record is created PENDING, but processTask runs synchronously up to its
first await and sets IN_PROGRESS before the response is serialized, so the
stored record is already IN_PROGRESS with startedAt set when the handler builds
the response from the live object. -/
theorem delegate_reports_in_progress :
    (delegate DEFAULT_CONFIG [] ("task-1") ("ping").toList none 0).2
      = .accepted ("task-1") .in_progress ("ping").toList none 0
    ∧ (delegate DEFAULT_CONFIG [] ("task-1") ("ping").toList none 0).2
      ≠ .accepted ("task-1") .pending ("ping").toList none 0
    ∧ (findTask (delegate DEFAULT_CONFIG [] ("task-1") ("ping").toList none 0).1 ("task-1")).map
        TaskState.status = some .in_progress :=
  ⟨by decide, by decide, by decide⟩

/-- C4: starting from any registry with unique ids whose active count respects
the cap, no interleaving of delegate calls with the other registry operations
ever pushes the count of PENDING or IN_PROGRESS records above the configured
maximum concurrency; and a delegate call arriving when the count has reached
the maximum creates no record and returns the structured rejection carrying the
configured limit and the current active count. -/
theorem no_admission_beyond_cap (cfg : LiaisonConfig) (ops : List RegistryOp)
    (tasks : Registry) (hN : (tasks.map TaskState.id).Nodup)
    (hC : getActiveTaskCount tasks ≤ cfg.maxConcurrentTasks) :
    getActiveTaskCount (runOps cfg ops tasks) ≤ cfg.maxConcurrentTasks
    ∧ (∀ taskId task context now, cfg.maxConcurrentTasks ≤ getActiveTaskCount tasks →
        delegate cfg tasks taskId task context now
          = (tasks, .rejected cfg.maxConcurrentTasks (getActiveTaskCount tasks))) := by
  refine ⟨(runOps_preserves_invariant cfg ops tasks hN hC).2, ?_⟩
  intro taskId task context now hfull
  rw [delegate, if_pos hfull]

/-- C4 witness: with ten running tasks under the default cap of ten, the cap
invariant holds across a further operation sequence, and an eleventh delegate
call is rejected with limit 10 and current 10, leaving the registry unchanged. -/
theorem no_admission_beyond_cap_witness :
    ((demoTen.map TaskState.id)).Nodup
    ∧ getActiveTaskCount demoTen ≤ DEFAULT_CONFIG.maxConcurrentTasks
    ∧ getActiveTaskCount (runOps DEFAULT_CONFIG [.opCancel ("a") 5] demoTen)
        ≤ DEFAULT_CONFIG.maxConcurrentTasks
    ∧ delegate DEFAULT_CONFIG demoTen ("k") ("ping").toList none 99
      = (demoTen, .rejected 10 10) := by
  refine ⟨by decide, by decide, ?_, ?_⟩
  · exact (no_admission_beyond_cap DEFAULT_CONFIG [.opCancel ("a") 5] demoTen
      (by decide) (by decide)).1
  · exact (no_admission_beyond_cap DEFAULT_CONFIG [] demoTen
      (by decide) (by decide)).2 ("k") ("ping").toList none 99 (by decide)

/-- C5: a run with no cancellation whose wall clock elapsed since startedAt
exceeds the configured timeout when the executor steps finish ends FAILED with
the timeout message and completedAt set, and in particular not COMPLETED. -/
theorem timeout_forces_failed (cfg : LiaisonConfig) (endT : Nat → Nat) (t0 : Nat)
    (s : TaskState) (h : cfg.taskTimeoutMs < endT 4 - t0) :
    (finalState cfg endT none t0 s).status = .failed
    ∧ (finalState cfg endT none t0 s).error
        = some ("Task exceeded timeout of " ++ toString cfg.taskTimeoutMs ++ "ms")
    ∧ (finalState cfg endT none t0 s).completedAt = some (endT 4)
    ∧ (finalState cfg endT none t0 s).status ≠ .completed := by
  have hrw : finalState cfg endT none t0 s = finalBlock cfg (endT 4)
      { s with status := .in_progress, startedAt := some t0,
               updatedAt := endT 4, progress := some 100 } := rfl
  rw [hrw, finalBlock]
  rw [if_pos (by simpa using h)]
  exact ⟨rfl, rfl, rfl, by simp⟩

/-- C5 witness: the timeout theorem evaluated on a run whose five delays end at
wall clock 300001 with the default timeout of 300000 milliseconds. -/
theorem timeout_forces_failed_witness :
    DEFAULT_CONFIG.taskTimeoutMs < (fun _ : Nat => 300001) 4 - 0
    ∧ (finalState DEFAULT_CONFIG (fun _ : Nat => 300001) none 0 sampleTask).status = .failed :=
  ⟨by decide, (timeout_forces_failed DEFAULT_CONFIG (fun _ => 300001) 0 sampleTask (by decide)).1⟩

/-- C6: given unique ids, after the retention cleanup at most 100 terminal
records remain (the cap is the constant 100 in the code); cleanup never evicts
a non-terminal record regardless of age; every evicted record is no more
recently updated than any terminal record kept; and the registry produced by
an admitted delegation, which runs the cleanup last, carries at most 100
terminal records. -/
theorem retention_bound (tasks : Registry) (hN : (tasks.map TaskState.id).Nodup)
    (cfg : LiaisonConfig) (taskId : String) (task : List Char)
    (context : Option (List Char)) (now : Nat) :
    terminalCount (cleanupOldTasks tasks) ≤ 100
    ∧ (∀ t ∈ tasks, isTerminal t.status = false → t ∈ cleanupOldTasks tasks)
    ∧ (∀ t ∈ tasks, t ∉ cleanupOldTasks tasks →
        ∀ u ∈ cleanupOldTasks tasks, isTerminal u.status = true → t.updatedAt ≤ u.updatedAt)
    ∧ (getActiveTaskCount tasks < cfg.maxConcurrentTasks →
        terminalCount (delegate cfg tasks taskId task context now).1 ≤ 100) := by
  refine ⟨cleanup_terminal_le tasks hN, ?_, ?_, ?_⟩
  · intro t ht hterm
    exact cleanup_keeps_nonterminal tasks hN t ht hterm
  · intro t ht hnot u hu huterm
    exact cleanup_evicts_oldest tasks hN t u ht hnot hu huterm
  · intro hlt
    rw [delegate, if_neg (by omega)]
    exact cleanup_terminal_le _ (setTask_ids_nodup (setTask_ids_nodup hN _) _)

/-- C6 witness: the retention theorem evaluated on a registry holding one
completed and one running record. -/
theorem retention_bound_witness :
    (([demoDone, demoRunning].map TaskState.id)).Nodup
    ∧ terminalCount (cleanupOldTasks [demoDone, demoRunning]) ≤ 100
    ∧ demoRunning ∈ cleanupOldTasks [demoDone, demoRunning] := by
  refine ⟨by decide, ?_, ?_⟩
  · exact (retention_bound [demoDone, demoRunning] (by decide) DEFAULT_CONFIG ("task-9")
      ("x").toList none 3).1
  · exact (retention_bound [demoDone, demoRunning] (by decide) DEFAULT_CONFIG ("task-9")
      ("x").toList none 3).2.1 demoRunning (by decide) rfl

/-- C7 counterexample: a cancellation landing during the first delay, before
any progress step has completed, still ends with final status CANCELLED, but
progress is 20, not 0: the delay in flight resolves and its progress write
lands after the cancellation, refuting the claim as stated. -/
theorem cancelled_progress_cex :
    (finalState DEFAULT_CONFIG (fun i => 1000 * (i + 1)) (some (0, 500)) 0 sampleTask).status
      = .cancelled
    ∧ (finalState DEFAULT_CONFIG (fun i => 1000 * (i + 1)) (some (0, 500)) 0 sampleTask).progress
      = some 20
    ∧ (finalState DEFAULT_CONFIG (fun i => 1000 * (i + 1)) (some (0, 500)) 0 sampleTask).progress
      ≠ some 0 :=
  ⟨rfl, rfl, by decide⟩

/-- C7 (amended): a task cancelled during step j + 1 for j at most 3 ends
CANCELLED, and its final progress is the value of the step that was in flight
when the cancellation landed (20 times j + 1): exactly one progress write still
lands after the cancellation write, and none after the engine observes the
cancellation at its next check. In particular a task cancelled before any
progress step completes ends with progress 20, not 0. -/
theorem cancelled_progress_amended (cfg : LiaisonConfig) (endT : Nat → Nat)
    (t0 tc : Nat) (s : TaskState) (j : Nat) (hj : j ≤ 3) :
    (finalState cfg endT (some (j, tc)) t0 s).status = .cancelled
    ∧ (finalState cfg endT (some (j, tc)) t0 s).progress = some (stepProgress 5 j)
    ∧ (finalState cfg endT (some (j, tc)) t0 s).updatedAt = endT j := by
  interval_cases j <;> exact ⟨rfl, rfl, rfl⟩

/-- C7 witness: the amended progress theorem evaluated at a cancellation
landing during the second delay, giving progress 40. -/
theorem cancelled_progress_amended_witness :
    (1 : Nat) ≤ 3
    ∧ (finalState DEFAULT_CONFIG (fun i => 1000 * (i + 1)) (some (1, 1500)) 0 sampleTask).status
      = .cancelled
    ∧ (finalState DEFAULT_CONFIG (fun i => 1000 * (i + 1)) (some (1, 1500)) 0 sampleTask).progress
      = some 40 := by
  refine ⟨by decide, ?_, ?_⟩
  · exact (cancelled_progress_amended DEFAULT_CONFIG (fun i => 1000 * (i + 1)) 0 1500
      sampleTask 1 (by decide)).1
  · exact (cancelled_progress_amended DEFAULT_CONFIG (fun i => 1000 * (i + 1)) 0 1500
      sampleTask 1 (by decide)).2.1

/-- C8: cancel_task returns not-found and mutates nothing when the id has no
record; returns an invalid-state rejection reporting the current status and
mutates nothing when the record is terminal; otherwise it sets exactly status
CANCELLED and updatedAt now, leaves completedAt and every other field of the
record unchanged, leaves every record with a different id in place, and returns
the updated record. -/
theorem cancel_task_contract (tasks : Registry) (taskId : String) (now : Nat) :
    (findTask tasks taskId = none → cancelTask tasks taskId now = (tasks, .notFound))
    ∧ (∀ t, findTask tasks taskId = some t → isTerminal t.status = true →
        cancelTask tasks taskId now = (tasks, .invalidState t.status))
    ∧ (∀ t, findTask tasks taskId = some t → isActive t.status = true →
        cancelTask tasks taskId now
          = (setTask tasks { t with status := .cancelled, updatedAt := now },
             .ok { t with status := .cancelled, updatedAt := now })
        ∧ ({ t with status := .cancelled, updatedAt := now } : TaskState).status = .cancelled
        ∧ ({ t with status := .cancelled, updatedAt := now } : TaskState).updatedAt = now
        ∧ ({ t with status := .cancelled, updatedAt := now } : TaskState).completedAt = t.completedAt
        ∧ ({ t with status := .cancelled, updatedAt := now } : TaskState).startedAt = t.startedAt
        ∧ ({ t with status := .cancelled, updatedAt := now } : TaskState).createdAt = t.createdAt
        ∧ ({ t with status := .cancelled, updatedAt := now } : TaskState).progress = t.progress
        ∧ ({ t with status := .cancelled, updatedAt := now } : TaskState).result = t.result
        ∧ ({ t with status := .cancelled, updatedAt := now } : TaskState).error = t.error
        ∧ ({ t with status := .cancelled, updatedAt := now } : TaskState).id = t.id
        ∧ ({ t with status := .cancelled, updatedAt := now } : TaskState).task = t.task
        ∧ ({ t with status := .cancelled, updatedAt := now } : TaskState).context = t.context
        ∧ (∀ u, u ∈ tasks → u.id ≠ taskId → u ∈ (cancelTask tasks taskId now).1)) := by
  refine ⟨?_, ?_, ?_⟩
  · intro hn
    rw [cancelTask, hn]
  · intro t hf ht
    rw [cancelTask, hf]
    simp [isActive_eq_false_of_isTerminal ht]
  · intro t hf ha
    have hf2 : tasks.find? (fun u => decide (u.id = taskId)) = some t := hf
    have hpa := List.find?_some hf2
    have hid : t.id = taskId := by simpa using hpa
    refine ⟨by rw [cancelTask, hf]; simp [ha], rfl, rfl, rfl, rfl, rfl, rfl, rfl, rfl, rfl,
      rfl, rfl, ?_⟩
    intro u hu hne
    rw [cancelTask, hf]
    simp only [ha, if_pos]
    rw [setTask]
    by_cases hex : tasks.any (fun v =>
        v.id = ({ t with status := .cancelled, updatedAt := now } : TaskState).id)
    · rw [if_pos hex]
      have hvu : (if u.id = ({ t with status := .cancelled, updatedAt := now } : TaskState).id
          then ({ t with status := .cancelled, updatedAt := now } : TaskState) else u) = u := by
        rw [if_neg]
        simpa [hid] using hne
      exact hvu ▸ List.mem_map_of_mem _ hu
    · rw [if_neg hex]
      exact List.mem_append_left _ hu

/-- C8 witness: the cancellation contract evaluated on the empty registry, on a
registry with one completed record, and on a registry with one pending record. -/
theorem cancel_task_contract_witness :
    findTask [] ("task-1") = none
    ∧ cancelTask [] ("task-1") 5 = ([], .notFound)
    ∧ findTask [demoDone] ("task-2") = some demoDone
    ∧ isTerminal demoDone.status = true
    ∧ cancelTask [demoDone] ("task-2") 5 = ([demoDone], .invalidState .completed)
    ∧ findTask [sampleTask] ("task-1") = some sampleTask
    ∧ isActive sampleTask.status = true
    ∧ (cancelTask [sampleTask] ("task-1") 5).2
        = .ok { sampleTask with status := .cancelled, updatedAt := 5 } := by
  refine ⟨rfl, (cancel_task_contract [] ("task-1") 5).1 rfl, rfl, rfl, ?_, rfl, rfl, ?_⟩
  · exact (cancel_task_contract [demoDone] ("task-2") 5).2.1 demoDone rfl rfl
  · exact congrArg Prod.snd
      (((cancel_task_contract [sampleTask] ("task-1") 5).2.2 sampleTask rfl rfl).1)

/-- C9: for every registry state, optional status filter and limit, list_tasks
returns at most limit records, every returned record has the requested status
when a filter is given, and the records are ordered by updatedAt descending. -/
theorem list_tasks_filtered_sorted_limited (tasks : Registry) (st : Option TaskStatus)
    (limit : Nat) :
    (listTasks tasks st limit).length ≤ limit
    ∧ (∀ s t, st = some s → t ∈ listTasks tasks st limit → t.status = s)
    ∧ (listTasks tasks st limit).Pairwise (fun a b => b.updatedAt ≤ a.updatedAt) := by
  refine ⟨length_listTasks tasks st limit, ?_, pairwise_listTasks tasks st limit⟩
  intro s t hst ht
  subst hst
  exact status_of_mem_listTasks ht

/-- C9 witness: the listing theorem evaluated on a registry of two completed
and one running record, filtered to completed with limit 2. -/
theorem list_tasks_filtered_sorted_limited_witness :
    (listTasks [demoDone, demoRunning, demoDone2] (some .completed) 2).length ≤ 2
    ∧ (listTasks [demoDone, demoRunning, demoDone2] (some .completed) 2).Pairwise
        (fun a b => b.updatedAt ≤ a.updatedAt)
    ∧ demoDone2.status = .completed := by
  refine ⟨(list_tasks_filtered_sorted_limited [demoDone, demoRunning, demoDone2]
      (some .completed) 2).1,
    (list_tasks_filtered_sorted_limited [demoDone, demoRunning, demoDone2]
      (some .completed) 2).2.2,
    (list_tasks_filtered_sorted_limited [demoDone, demoRunning, demoDone2]
      (some .completed) 2).2.1 .completed demoDone2 rfl (by decide)⟩

/-- C10: every list_tasks entry carries the first 100 characters of the stored
description with the three character ellipsis appended exactly when the stored
description is longer than 100 characters, and check_status returns the full
description unmodified. -/
theorem listing_truncates_description (tasks : Registry) (st : Option TaskStatus)
    (limit : Nat) (e : ListEntry) (s : List Char) (taskId : String) (t : TaskState) :
    (e ∈ listTaskEntries tasks st limit → ∃ u ∈ tasks, e.task = truncateTaskText u.task)
    ∧ (s.length ≤ 100 → truncateTaskText s = s)
    ∧ (100 < s.length → truncateTaskText s = s.take 100 ++ ("...").toList)
    ∧ (findTask tasks taskId = some t → checkStatusTaskText tasks taskId = some t.task) := by
  refine ⟨?_, ?_, ?_, ?_⟩
  · intro he
    rw [listTaskEntries, List.mem_map] at he
    obtain ⟨u, hu, rfl⟩ := he
    exact ⟨u, mem_of_mem_listTasks hu, rfl⟩
  · intro hle
    rw [truncateTaskText, if_neg (by omega), List.append_nil, List.take_of_length_le hle]
  · intro hgt
    rw [truncateTaskText, if_pos hgt]
  · intro hf
    rw [checkStatusTaskText, hf]
    rfl

set_option maxRecDepth 4000 in
/-- C10 witness: the truncation theorem evaluated on a four character
description, on a 150 character description, and on a check_status read. -/
theorem listing_truncates_description_witness :
    ("ping").toList.length ≤ 100
    ∧ truncateTaskText ("ping").toList = ("ping").toList
    ∧ 100 < longText.length
    ∧ truncateTaskText longText = longText.take 100 ++ ("...").toList
    ∧ checkStatusTaskText [sampleTask] ("task-1") = some ("ping").toList := by
  refine ⟨by decide, ?_, by decide, ?_, ?_⟩
  · exact (listing_truncates_description [] none 0 (mkListEntry sampleTask) ("ping").toList
      ("task-1") sampleTask).2.1 (by decide)
  · exact (listing_truncates_description [] none 0 (mkListEntry sampleTask) longText
      ("task-1") sampleTask).2.2.1 (by decide)
  · exact (listing_truncates_description [sampleTask] none 0 (mkListEntry sampleTask)
      longText ("task-1") sampleTask).2.2.2 rfl
